import Mathlib

/-!
Verification of the DTMF tone synthesizer / detector (`src/dtmf.py`).

The Python module is embedded shallowly:

* the frequency table `DTMF_FREQS` (a Python dict whose insertion order is
  the digits 1 to 9, then 0, then star, then hash) becomes an association
  list;
* `generate_dtmf_tone` becomes a function returning `Except DtmfError`,
  with the numpy failure modes (`ValueError` on a zero-size reduction,
  the undefined `np.int16` cast of a NaN produced by `0/0`) represented
  by dedicated error constructors, since the real numbers used for the
  samples have no NaN value;
* `identify_dtmf_key` is split into the spectral stage
  (`np_fft`, `fft_magnitude`, `freq_bins`, `argsort`, `dominant_freqs`,
  lines 68-75 of the source) over `ℝ`/`ℂ` and the table-matching stage
  (`np_isclose`, `entry_matches`, `identify_match`, lines 78-83) over `ℚ`
  (all candidate frequencies `k * sample_rate / M` and all table entries
  are rational, so that stage is exact and decidable);
* `np.isclose(a, b, atol := tolerance)` keeps numpy's default relative
  tolerance `rtol = 1e-5`: the test is `|a - b| ≤ atol + |b| / 100000`;
* `np.argsort` (ascending) is modelled as a stable insertion sort on
  (index, magnitude) pairs; the matching loop follows Python's
  left-to-right short-circuit evaluation of the `and` / `or` tests, so the
  accesses `dominant_freqs[0]` and `dominant_freqs[1]` raise — modelled by
  an error constructor — exactly when they are reached on a too-short
  candidate list.
-/

/-- Failure modes of the Python functions, as surfaced by the interpreter:
`invalidSymbol` is the explicit `ValueError` of `generate_dtmf_tone`;
`emptyBuffer` is the `ValueError` numpy raises for an FFT of zero points;
`emptyReduction` is the `ValueError` of `np.max` on a zero-size array;
`nanCast` stands for the undefined `np.int16` cast of the NaN produced by
dividing the all-zero waveform by its zero peak; `indexError` is the
`IndexError` of `dominant_freqs[0]` / `dominant_freqs[1]` when such an
access is evaluated beyond the end of the candidate list. -/
inductive DtmfError where
  | invalidSymbol
  | emptyBuffer
  | emptyReduction
  | nanCast
  | indexError
deriving DecidableEq, Repr

/-- The DTMF frequency table of `src/dtmf.py` lines 7-12, in the dict's
insertion order: digits 1-9, then 0, then the star key, then the hash key. -/
def DTMF_FREQS : List (String × ℚ × ℚ) :=
  [("1", (697, 1209)), ("2", (697, 1336)), ("3", (697, 1477)),
   ("4", (770, 1209)), ("5", (770, 1336)), ("6", (770, 1477)),
   ("7", (852, 1209)), ("8", (852, 1336)), ("9", (852, 1477)),
   ("0", (941, 1336)), ("*", (941, 1209)), ("#", (941, 1477))]

/-- Semantics of `np.isclose(a, b, atol := atol)` with numpy's default
relative tolerance `rtol = 1e-5`: the documented test is
`|a - b| <= atol + rtol * |b|`. -/
def np_isclose (a b atol : ℚ) : Bool :=
  decide (|a - b| ≤ atol + |b| / 100000)

/-- The per-entry test of the matching loop (source lines 79-80): the
candidate pair `(d0, d1)` is compared against `(low, high)` in both orders,
each comparison being `np.isclose` with `atol := tol`. -/
def entry_matches (d0 d1 tol : ℚ) (e : String × ℚ × ℚ) : Bool :=
  (np_isclose d0 e.2.1 tol && np_isclose d1 e.2.2 tol) ||
    (np_isclose d0 e.2.2 tol && np_isclose d1 e.2.1 tol)

/-- The matching loop of `identify_dtmf_key` (source lines 78-83): iterate
over the table in insertion order, return the first key whose frequency pair
passes `entry_matches`, and `none` when no entry does. -/
def identify_match (d0 d1 tol : ℚ) : Option String :=
  (DTMF_FREQS.find? (entry_matches d0 d1 tol)).map (fun e => e.1)

/-- Purely absolute matching as the spec describes it (`|observed - expected|
≤ tolerance` for both frequencies simultaneously, in either order), written
independently of the source's `np.isclose`-based test for comparison. -/
def spec_abs_match (d0 d1 tol lf hf : ℚ) : Prop :=
  (|d0 - lf| ≤ tol ∧ |d1 - hf| ≤ tol) ∨ (|d0 - hf| ≤ tol ∧ |d1 - lf| ≤ tol)

/-- Semantics of `np.max` on a one-dimensional array: the maximum of the
elements, with the `ValueError` raised on a zero-size reduction represented
by `none`. -/
noncomputable def np_max : List ℝ → Option ℝ
  | [] => none
  | x :: xs => some (xs.foldl max x)

/-- Semantics of the `np.int16` cast applied to a float: C-style truncation
toward zero.  The cast is only meaningful on values in the 16-bit range;
the normalization in `generate_dtmf_tone` only ever produces values in
`[-32767, 32767]` (out-of-range float-to-integer conversion is platform
undefined in numpy and never reached here). -/
noncomputable def np_int16_trunc (x : ℝ) : ℤ :=
  if 0 ≤ x then ⌊x⌋ else ⌈x⌉

/-- The un-normalized waveform of `generate_dtmf_tone` (source lines 20-27):
`N = int(sample_rate * duration)` samples on the time grid
`np.linspace(0, duration, N, endpoint=False)`, i.e. `t_n = duration * n / N`,
each sample being `sin(2 pi low t) + sin(2 pi high t)`. -/
noncomputable def dtmf_wave (low_freq high_freq sample_rate duration : ℚ) :
    List ℝ :=
  ((List.range ((⌊sample_rate * duration⌋).toNat)).map
      (fun n : ℕ =>
        (duration : ℝ) * (n : ℝ) / (((⌊sample_rate * duration⌋).toNat : ℕ) : ℝ))).map
    (fun x =>
      Real.sin (2 * Real.pi * (low_freq : ℝ) * x) +
        Real.sin (2 * Real.pi * (high_freq : ℝ) * x))

/-- The normalization of source line 29:
`np.int16(dtmf_tone / np.max(np.abs(dtmf_tone)) * 32767)`.  A zero-size
array makes `np.max` raise (`emptyReduction`); a zero peak makes the
division produce NaN and the ensuing `np.int16` cast undefined (`nanCast`);
otherwise every sample is scaled by `32767 / peak` and truncated to an
integer. -/
noncomputable def normalize_int16 (w : List ℝ) : Except DtmfError (List ℤ) :=
  match np_max (w.map (fun s => |s|)) with
  | none => .error .emptyReduction
  | some peak =>
    if peak = 0 then .error .nanCast
    else .ok (w.map (fun s => np_int16_trunc (s / peak * 32767)))

/-- The synthesizer `generate_dtmf_tone` (source lines 15-29): an invalid
key raises `ValueError` (`invalidSymbol`); otherwise the dual-sine waveform
is built, normalized to 16-bit samples and returned together with the
sample rate. -/
noncomputable def generate_dtmf_tone (key : String)
    (sample_rate : ℚ := 8000) (duration : ℚ := 1 / 2) :
    Except DtmfError (List ℤ × ℚ) :=
  match DTMF_FREQS.find? (fun e => e.1 == key) with
  | none => .error .invalidSymbol
  | some e =>
    (normalize_int16 (dtmf_wave e.2.1 e.2.2 sample_rate duration)).map
      (fun buf => (buf, sample_rate))

/-- The discrete Fourier transform computed by `np.fft.fft` (source line
68): bin `k` is `sum over n of x[n] * exp(-2 pi i k n / M)` where `M` is
the buffer length. -/
noncomputable def np_fft (xs : List ℝ) : List ℂ :=
  (List.range xs.length).map
    (fun k : ℕ =>
      ((List.range xs.length).map
        (fun n : ℕ =>
          ((xs.getD n 0 : ℝ) : ℂ) *
            Complex.exp
              (-(2 * (Real.pi : ℂ) * Complex.I * (k : ℂ) * (n : ℂ)) /
                (xs.length : ℂ)))).sum)

/-- Source line 70: `np.abs(fft_result[:len(fft_result) // 2])`, the
magnitude spectrum restricted to the first `M / 2` bins. -/
noncomputable def fft_magnitude (xs : List ℝ) : List ℝ :=
  ((np_fft xs).take (xs.length / 2)).map Complex.abs

/-- Source lines 69 and 71: `np.fft.fftfreq(M, d=1/sample_rate)` truncated
to its first `M / 2` entries, which are exactly the non-negative
frequencies `k * sample_rate / M` for `k < M / 2`. -/
def freq_bins (M : ℕ) (fs : ℚ) : List ℚ :=
  (List.range (M / 2)).map (fun k : ℕ => (k : ℚ) * fs / (M : ℚ))

/-- Insertion step of the sort behind `np.argsort`: insert an
(index, magnitude) pair into a list sorted by ascending magnitude, after
any pair of equal magnitude already present. -/
noncomputable def insert_by_mag (p : ℕ × ℝ) :
    List (ℕ × ℝ) → List (ℕ × ℝ)
  | [] => [p]
  | q :: qs => if p.2 < q.2 then p :: q :: qs else q :: insert_by_mag p qs

/-- Semantics of `np.argsort` (source line 74): the indices of the list,
reordered so that the corresponding values are ascending, equal values
keeping their original index order. -/
noncomputable def argsort (vs : List ℝ) : List ℕ :=
  (vs.enum.foldl (fun acc p => insert_by_mag p acc) []).map (fun p => p.1)

/-- Source lines 74-75: `np.argsort(fft_magnitude)[-2:]` then
`freq[dominant_freqs_indices]` — the frequencies of the (at most) two
highest-magnitude bins, in ascending order of magnitude. -/
noncomputable def dominant_freqs (xs : List ℝ) (fs : ℚ) : List ℚ :=
  ((argsort (fft_magnitude xs)).drop
      ((argsort (fft_magnitude xs)).length - 2)).map
    (fun i => (freq_bins xs.length fs).getD i 0)

/-- One iteration of the matching loop (source lines 79-80), with Python's
left-to-right short-circuit evaluation over the candidate list: an empty
candidate list fails at `dominant_freqs[0]`; a one-element list reaches
`dominant_freqs[1]` — and hence fails — only when one of the two
`np.isclose(dominant_freqs[0], ...)` tests on the first operand of an `and`
succeeds, and otherwise the iteration just reports no match; with two
candidates the iteration evaluates `entry_matches`. -/
def entry_test (doms : List ℚ) (tol : ℚ) (e : String × ℚ × ℚ) :
    Except DtmfError Bool :=
  match doms with
  | [] => .error .indexError
  | [d0] =>
    if np_isclose d0 e.2.1 tol then .error .indexError
    else if np_isclose d0 e.2.2 tol then .error .indexError
    else .ok false
  | d0 :: d1 :: _ => .ok (entry_matches d0 d1 tol e)

/-- The `for key, (low_freq, high_freq) in DTMF_FREQS.items()` loop of
source lines 78-83: run `entry_test` on each entry in insertion order,
propagate a raised `IndexError`, return the first matching key, and
return `None` when the loop completes without a match. -/
def match_loop (doms : List ℚ) (tol : ℚ) :
    List (String × ℚ × ℚ) → Except DtmfError (Option String)
  | [] => .ok none
  | e :: rest =>
    match entry_test doms tol e with
    | .error err => .error err
    | .ok true => .ok (some e.1)
    | .ok false => match_loop doms tol rest

/-- The detector `identify_dtmf_key` (source lines 67-83).  A zero-length
buffer makes `np.fft.fft` raise (`emptyBuffer`); otherwise the matching
loop runs over the frequency table with the extracted candidate list,
returning the first matching symbol, `none` when no symbol matches, and
the `IndexError` of `dominant_freqs[0]` / `dominant_freqs[1]` exactly when
such an out-of-bounds access is actually evaluated. -/
noncomputable def identify_dtmf_key (xs : List ℝ)
    (fs : ℚ := 8000) (tol : ℚ := 20) : Except DtmfError (Option String) :=
  if xs.length = 0 then .error .emptyBuffer
  else match_loop (dominant_freqs xs fs) tol DTMF_FREQS

/-- Claim C2 (counterexample): the match test is not purely absolute.  With
the default tolerance 20 Hz, an observed frequency 1229.01 Hz deviates from
the expected 1209 Hz by 20.01 Hz > 20 Hz, yet the pair (697, 1229.01) is
still matched (to the symbol "1"), because `np.isclose` adds the relative
slack `1e-5 * 1209 = 0.01209` Hz on top of the absolute tolerance. -/
theorem identify_match_accepts_beyond_tolerance :
    20 < |(122901 / 100 : ℚ) - 1209| ∧
      ¬ spec_abs_match 697 (122901 / 100) 20 697 1209 ∧
      identify_match 697 (122901 / 100) 20 = some "1" := by
  refine ⟨?_, ?_, ?_⟩
  · rw [lt_abs]; left; norm_num
  · simp only [spec_abs_match, abs_le]
    norm_num
  · rw [identify_match, DTMF_FREQS, List.find?_cons_of_pos]
    · rfl
    · simp only [entry_matches, np_isclose, Bool.or_eq_true, Bool.and_eq_true,
        decide_eq_true_eq, abs_le]
      norm_num

/-- Claim C2 (amended): a candidate pair passes the per-entry match test
exactly when `|observed - expected| ≤ tolerance + |expected| / 100000` holds
for both frequencies simultaneously (in either order); the extra term is
numpy's default relative tolerance `rtol = 1e-5` of `np.isclose`, so the
test is a combined absolute-plus-relative tolerance, not a purely absolute
one. -/
theorem entry_matches_iff_combined_tolerance (d0 d1 tol : ℚ)
    (e : String × ℚ × ℚ) :
    entry_matches d0 d1 tol e = true ↔
      ((|d0 - e.2.1| ≤ tol + |e.2.1| / 100000 ∧
          |d1 - e.2.2| ≤ tol + |e.2.2| / 100000) ∨
        (|d0 - e.2.2| ≤ tol + |e.2.2| / 100000 ∧
          |d1 - e.2.1| ≤ tol + |e.2.1| / 100000)) := by
  simp [entry_matches, np_isclose]

theorem foldl_max_mem (xs : List ℝ) (a : ℝ) :
    xs.foldl max a = a ∨ xs.foldl max a ∈ xs := by
  induction xs generalizing a with
  | nil => exact Or.inl rfl
  | cons x xs ih =>
    rw [List.foldl_cons]
    rcases ih (max a x) with h | h
    · rw [h]
      rcases le_total a x with hax | hxa
      · exact Or.inr (by rw [max_eq_right hax]; exact List.mem_cons_self x xs)
      · exact Or.inl (max_eq_left hxa)
    · exact Or.inr (List.mem_cons_of_mem x h)

theorem le_foldl_max (xs : List ℝ) (a : ℝ) :
    a ≤ xs.foldl max a ∧ ∀ x ∈ xs, x ≤ xs.foldl max a := by
  induction xs generalizing a with
  | nil => exact ⟨le_refl a, by simp⟩
  | cons y ys ih =>
    rw [List.foldl_cons]
    obtain ⟨h1, h2⟩ := ih (max a y)
    refine ⟨le_trans (le_max_left a y) h1, ?_⟩
    intro x hx
    rcases List.mem_cons.1 hx with rfl | hx
    · exact le_trans (le_max_right a x) h1
    · exact h2 x hx

theorem np_max_mem {l : List ℝ} {m : ℝ} (h : np_max l = some m) : m ∈ l := by
  cases l with
  | nil => simp [np_max] at h
  | cons x xs =>
    have hm : xs.foldl max x = m := by simpa [np_max] using h
    rcases foldl_max_mem xs x with h' | h'
    · rw [← hm, h']; exact List.mem_cons_self x xs
    · rw [← hm]; exact List.mem_cons_of_mem x h'

theorem le_np_max {l : List ℝ} {m : ℝ} (h : np_max l = some m) :
    ∀ x ∈ l, x ≤ m := by
  cases l with
  | nil => simp [np_max] at h
  | cons x xs =>
    have hm : xs.foldl max x = m := by simpa [np_max] using h
    intro y hy
    rcases List.mem_cons.1 hy with rfl | hy
    · rw [← hm]; exact (le_foldl_max xs y).1
    · rw [← hm]; exact (le_foldl_max xs x).2 y hy

theorem dtmf_wave_length (lf hf fs dur : ℚ) :
    (dtmf_wave lf hf fs dur).length = (⌊fs * dur⌋).toNat := by
  unfold dtmf_wave
  rw [List.length_map, List.length_map, List.length_range]

theorem normalize_int16_error_cases (w : List ℝ) (err : DtmfError)
    (h : normalize_int16 w = .error err) :
    err = .emptyReduction ∨ err = .nanCast := by
  unfold normalize_int16 at h
  split at h
  · exact Or.inl (by injection h with h'; exact h'.symm)
  · split at h
    · exact Or.inr (by injection h with h'; exact h'.symm)
    · exact absurd h (by simp)

theorem normalize_int16_ok (w : List ℝ) (buf : List ℤ)
    (h : normalize_int16 w = .ok buf) :
    ∃ peak : ℝ, np_max (w.map (fun s => |s|)) = some peak ∧ peak ≠ 0 ∧
      buf = w.map (fun s => np_int16_trunc (s / peak * 32767)) := by
  unfold normalize_int16 at h
  split at h
  · exact absurd h (by simp)
  · next peak heq =>
    split at h
    · exact absurd h (by simp)
    · next hzero =>
      exact ⟨peak, heq, hzero, (by injection h with h'; exact h'.symm)⟩

/-- Claim C6: `generate_dtmf_tone` fails with the invalid-symbol error for
every key outside the frequency table, and never fails with that error for
a key that is in the table (whatever the sample rate and duration). -/
theorem generate_invalid_symbol_cases (key : String) (fs dur : ℚ) :
    ((∀ e ∈ DTMF_FREQS, e.1 ≠ key) →
        generate_dtmf_tone key fs dur = .error .invalidSymbol)
    ∧ ((∃ e ∈ DTMF_FREQS, e.1 = key) →
        generate_dtmf_tone key fs dur ≠ .error .invalidSymbol) := by
  constructor
  · intro hnone
    have hf : DTMF_FREQS.find? (fun e => e.1 == key) = none := by
      rw [List.find?_eq_none]
      intro e he
      simpa using hnone e he
    unfold generate_dtmf_tone
    rw [hf]
  · rintro ⟨e, he, hek⟩
    unfold generate_dtmf_tone
    split
    · next hfind =>
      rw [List.find?_eq_none] at hfind
      have := hfind e he
      simp [hek] at this
    · next e' hfind =>
      cases hn : normalize_int16 (dtmf_wave e'.2.1 e'.2.2 fs dur) with
      | error err =>
        rcases normalize_int16_error_cases _ _ hn with rfl | rfl <;>
          simp [Except.map]
      | ok b => simp [Except.map]

/-- Claim C7: whenever `generate_dtmf_tone` returns a buffer (for a valid
symbol and positive sample rate and duration), that buffer contains exactly
`floor(sample_rate * duration)` samples. -/
theorem generate_length_eq_floor (key : String) (fs dur : ℚ)
    (hfs : 0 < fs) (hdur : 0 < dur) (buf : List ℤ) (r : ℚ)
    (h : generate_dtmf_tone key fs dur = .ok (buf, r)) :
    (buf.length : ℤ) = ⌊fs * dur⌋ := by
  unfold generate_dtmf_tone at h
  split at h
  · exact absurd h (by simp)
  · next e heq =>
    cases hn : normalize_int16 (dtmf_wave e.2.1 e.2.2 fs dur) with
    | error err => rw [hn] at h; exact absurd h (by simp [Except.map])
    | ok b =>
      rw [hn] at h
      simp only [Except.map, Except.ok.injEq, Prod.mk.injEq] at h
      obtain ⟨hb, hr⟩ := h
      obtain ⟨peak, hpk, hpk0, hbw⟩ := normalize_int16_ok _ _ hn
      rw [← hb, hbw, List.length_map, dtmf_wave_length]
      exact Int.toNat_of_nonneg (Int.floor_nonneg.2 (le_of_lt (mul_pos hfs hdur)))

theorem find_key_one :
    DTMF_FREQS.find? (fun e => e.1 == "1") = some ("1", 697, 1209) := by
  unfold DTMF_FREQS
  rw [List.find?_cons_of_pos _ (by rfl)]

theorem dtmf_wave_one_sample : dtmf_wave 697 1209 8000 (1 / 8000) = [0] := by
  have hN : (⌊(8000 : ℚ) * (1 / 8000)⌋).toNat = 1 := by
    rw [show (8000 : ℚ) * (1 / 8000) = 1 by norm_num]
    norm_num
  unfold dtmf_wave
  rw [hN, show List.range 1 = [0] from rfl]
  simp

/-- Claim C8: on an input whose un-normalized waveform has zero peak
magnitude (key "1" with sample rate 8000 and duration 1/8000 gives the
single sample `sin 0 + sin 0 = 0`), the code divides by the zero peak —
numpy produces NaN and the `np.int16` cast of it is undefined (modelled by
the `nanCast` error) — instead of failing with a distinct degenerate-signal
error: no such error exists anywhere in the source. -/
theorem generate_zero_peak_nan_cast :
    generate_dtmf_tone "1" 8000 (1 / 8000) = .error .nanCast := by
  unfold generate_dtmf_tone
  rw [find_key_one]
  show (normalize_int16 (dtmf_wave 697 1209 8000 (1 / 8000))).map
      (fun buf => (buf, (8000 : ℚ))) = .error .nanCast
  rw [dtmf_wave_one_sample]
  unfold normalize_int16
  simp [np_max, Except.map]

theorem np_int16_trunc_bounds (x : ℝ) (h2 : -32767 ≤ x) (h1 : x ≤ 32767) :
    -32768 ≤ np_int16_trunc x ∧ np_int16_trunc x ≤ 32767 := by
  unfold np_int16_trunc
  split
  · next hx =>
    constructor
    · have h0 : (0 : ℤ) ≤ ⌊x⌋ := Int.floor_nonneg.2 hx
      linarith
    · have hfl : ⌊x⌋ ≤ ⌊(32767 : ℝ)⌋ := Int.floor_le_floor h1
      rwa [show ((32767 : ℝ)) = ((32767 : ℤ) : ℝ) by norm_num,
        Int.floor_intCast] at hfl
  · next hx =>
    push_neg at hx
    constructor
    · have hcl : ⌈(-32767 : ℝ)⌉ ≤ ⌈x⌉ := Int.ceil_le_ceil h2
      rw [show ((-32767 : ℝ)) = ((-32767 : ℤ) : ℝ) by norm_num,
        Int.ceil_intCast] at hcl
      linarith
    · have hc : ⌈x⌉ ≤ ⌈(0 : ℝ)⌉ := Int.ceil_le_ceil (le_of_lt hx)
      rw [Int.ceil_zero] at hc
      linarith

theorem np_int16_trunc_int (n : ℤ) : np_int16_trunc ((n : ℝ)) = n := by
  unfold np_int16_trunc
  split
  · exact Int.floor_intCast n
  · exact Int.ceil_intCast n

theorem dtmf_wave_two_eval :
    dtmf_wave 697 1209 4836 (1 / 2418) =
      [0, Real.sin (Real.pi * (697 / 2418)) + 1] := by
  have hN : (⌊(4836 : ℚ) * (1 / 2418)⌋).toNat = 2 := by
    rw [show (4836 : ℚ) * (1 / 2418) = 2 by norm_num,
      show ⌊(2 : ℚ)⌋ = 2 by norm_num]
    rfl
  unfold dtmf_wave
  rw [hN, show List.range 2 = [0, 1] from rfl]
  simp only [List.map_cons, List.map_nil, List.cons.injEq, and_true]
  refine ⟨?_, ?_⟩
  · norm_num
  · congr 1
    · congr 1
      push_cast
      ring
    · rw [← Real.sin_pi_div_two]
      congr 1
      push_cast
      ring

theorem normalize_two_eval (A : ℝ) (hA : 0 < A) :
    normalize_int16 [0, A] = .ok [0, 32767] := by
  have habs : (([0, A] : List ℝ).map (fun s => |s|)) = [0, A] := by
    simp [abs_of_pos hA]
  have hmax : np_max [0, A] = some A := by
    simp [np_max, max_eq_right (le_of_lt hA)]
  unfold normalize_int16
  rw [habs]
  simp only [hmax]
  rw [if_neg (ne_of_gt hA)]
  simp only [List.map_cons, List.map_nil, Except.ok.injEq, List.cons.injEq,
    and_true]
  constructor
  · rw [zero_div, zero_mul]
    rw [show (0 : ℝ) = ((0 : ℤ) : ℝ) by norm_num, np_int16_trunc_int]
  · rw [div_self (ne_of_gt hA), one_mul]
    rw [show (32767 : ℝ) = ((32767 : ℤ) : ℝ) by norm_num, np_int16_trunc_int]

theorem generate_eval_two_samples :
    generate_dtmf_tone "1" 4836 (1 / 2418) = .ok ([0, 32767], 4836) := by
  have hA : 0 < Real.sin (Real.pi * (697 / 2418)) + 1 := by
    have h1 : 0 < Real.sin (Real.pi * (697 / 2418)) := by
      apply Real.sin_pos_of_pos_of_lt_pi
      · positivity
      · have hpi := Real.pi_pos
        nlinarith
    linarith
  unfold generate_dtmf_tone
  rw [find_key_one]
  show (normalize_int16 (dtmf_wave 697 1209 4836 (1 / 2418))).map
      (fun buf => (buf, (4836 : ℚ))) = .ok ([0, 32767], 4836)
  rw [dtmf_wave_two_eval, normalize_two_eval _ hA]
  rfl

/-- Claim C9: whenever `generate_dtmf_tone` returns a buffer, every sample
lies in the signed 16-bit range `[-32768, 32767]` and at least one sample
attains magnitude exactly 32767 (the normalization saturates exactly at the
peak sample). -/
theorem generate_samples_bounded_and_saturating (key : String) (fs dur : ℚ)
    (buf : List ℤ) (r : ℚ)
    (h : generate_dtmf_tone key fs dur = .ok (buf, r)) :
    (∀ v ∈ buf, -32768 ≤ v ∧ v ≤ 32767) ∧ ∃ v ∈ buf, |v| = 32767 := by
  unfold generate_dtmf_tone at h
  split at h
  · exact absurd h (by simp)
  · next e heq =>
    cases hn : normalize_int16 (dtmf_wave e.2.1 e.2.2 fs dur) with
    | error err => rw [hn] at h; exact absurd h (by simp [Except.map])
    | ok b =>
      rw [hn] at h
      simp only [Except.map, Except.ok.injEq, Prod.mk.injEq] at h
      obtain ⟨hb, hr⟩ := h
      obtain ⟨peak, hpk, hpk0, hbw⟩ := normalize_int16_ok _ _ hn
      have hbuf : buf = (dtmf_wave e.2.1 e.2.2 fs dur).map
          (fun s => np_int16_trunc (s / peak * 32767)) := by rw [← hb, hbw]
      have hmem : peak ∈ (dtmf_wave e.2.1 e.2.2 fs dur).map (fun s => |s|) :=
        np_max_mem hpk
      obtain ⟨s0, hs0w, hs0⟩ := List.mem_map.1 hmem
      have hub : ∀ s ∈ dtmf_wave e.2.1 e.2.2 fs dur, |s| ≤ peak := by
        intro s hs
        exact le_np_max hpk _ (List.mem_map_of_mem _ hs)
      have hpos : 0 < peak :=
        lt_of_le_of_ne (hs0 ▸ abs_nonneg s0) (Ne.symm hpk0)
      constructor
      · intro v hv
        rw [hbuf] at hv
        obtain ⟨s, hsw, rfl⟩ := List.mem_map.1 hv
        have hsb := hub s hsw
        have hle : s / peak ≤ 1 := (div_le_one hpos).2 (abs_le.1 hsb).2
        have hge : -1 ≤ s / peak :=
          (le_div_iff₀ hpos).2 (by linarith [(abs_le.1 hsb).1])
        exact np_int16_trunc_bounds _ (by nlinarith) (by nlinarith)
      · refine ⟨np_int16_trunc (s0 / peak * 32767), ?_, ?_⟩
        · rw [hbuf]
          exact List.mem_map_of_mem _ hs0w
        · rcases (abs_eq (le_of_lt hpos)).1 hs0 with hcase | hcase
          · rw [hcase, div_self (ne_of_gt hpos), one_mul]
            rw [show (32767 : ℝ) = ((32767 : ℤ) : ℝ) by norm_num,
              np_int16_trunc_int]
            norm_num
          · rw [hcase, neg_div, div_self (ne_of_gt hpos), neg_one_mul]
            rw [show (-(32767 : ℝ)) = ((-32767 : ℤ) : ℝ) by norm_num,
              np_int16_trunc_int]
            norm_num

/-- Witness for claim C6: the glyph "A" (not in the table) makes
`generate_dtmf_tone` fail with the invalid-symbol error, while the valid
key "1" never produces that error. -/
theorem generate_invalid_symbol_witness :
    generate_dtmf_tone "A" 8000 (1 / 2) = .error .invalidSymbol ∧
      generate_dtmf_tone "1" 4836 (1 / 2418) ≠ .error .invalidSymbol := by
  constructor
  · exact (generate_invalid_symbol_cases "A" 8000 (1 / 2)).1 (by decide)
  · refine (generate_invalid_symbol_cases "1" 4836 (1 / 2418)).2 ?_
    refine ⟨("1", 697, 1209), ?_, rfl⟩
    unfold DTMF_FREQS
    exact List.mem_cons_self _ _

/-- Witness for claim C7: `generate_dtmf_tone "1" 4836 (1/2418)` returns
the buffer `[0, 32767]` of length 2 = floor(4836 * 1/2418). -/
theorem generate_length_eq_floor_witness :
    (0 : ℚ) < 4836 ∧ (0 : ℚ) < 1 / 2418 ∧
      ((([0, 32767] : List ℤ).length : ℤ) = ⌊(4836 : ℚ) * (1 / 2418)⌋) :=
  ⟨by norm_num, by norm_num,
    generate_length_eq_floor "1" 4836 (1 / 2418) (by norm_num) (by norm_num)
      [0, 32767] 4836 generate_eval_two_samples⟩

/-- Witness for claim C9: the buffer `[0, 32767]` returned by
`generate_dtmf_tone "1" 4836 (1/2418)` is within the 16-bit range and
saturates at 32767. -/
theorem generate_samples_bounded_and_saturating_witness :
    (∀ v ∈ ([0, 32767] : List ℤ), -32768 ≤ v ∧ v ≤ 32767) ∧
      ∃ v ∈ ([0, 32767] : List ℤ), |v| = 32767 :=
  generate_samples_bounded_and_saturating "1" 4836 (1 / 2418) [0, 32767] 4836
    generate_eval_two_samples

theorem np_fft_length (xs : List ℝ) : (np_fft xs).length = xs.length := by
  unfold np_fft
  rw [List.length_map, List.length_range]

theorem fft_magnitude_length (xs : List ℝ) :
    (fft_magnitude xs).length = xs.length / 2 := by
  unfold fft_magnitude
  rw [List.length_map, List.length_take, np_fft_length]
  omega

theorem freq_bins_length (M : ℕ) (fs : ℚ) :
    (freq_bins M fs).length = M / 2 := by
  unfold freq_bins
  rw [List.length_map, List.length_range]

theorem insert_by_mag_length (p : ℕ × ℝ) (l : List (ℕ × ℝ)) :
    (insert_by_mag p l).length = l.length + 1 := by
  induction l with
  | nil => rfl
  | cons q qs ih =>
    simp only [insert_by_mag]
    split
    · simp
    · simp [ih]

theorem foldl_insert_length (l acc : List (ℕ × ℝ)) :
    (l.foldl (fun a p => insert_by_mag p a) acc).length =
      acc.length + l.length := by
  induction l generalizing acc with
  | nil => simp
  | cons p ps ih =>
    rw [List.foldl_cons, ih, insert_by_mag_length]
    simp only [List.length_cons]
    omega

theorem argsort_length (vs : List ℝ) : (argsort vs).length = vs.length := by
  unfold argsort
  rw [List.length_map, foldl_insert_length]
  simp [List.enum_length]

theorem mem_insert_by_mag {x p : ℕ × ℝ} {l : List (ℕ × ℝ)} :
    x ∈ insert_by_mag p l ↔ x = p ∨ x ∈ l := by
  induction l with
  | nil => simp [insert_by_mag]
  | cons q qs ih =>
    simp only [insert_by_mag]
    split
    · simp only [List.mem_cons]
    · simp only [List.mem_cons, ih]
      tauto

theorem mem_foldl_insert {x : ℕ × ℝ} (l acc : List (ℕ × ℝ)) :
    x ∈ l.foldl (fun a p => insert_by_mag p a) acc ↔ x ∈ acc ∨ x ∈ l := by
  induction l generalizing acc with
  | nil => simp
  | cons p ps ih =>
    rw [List.foldl_cons, ih, mem_insert_by_mag, List.mem_cons]
    tauto

theorem enumFrom_fst_lt (l : List ℝ) :
    ∀ (n : ℕ) (p : ℕ × ℝ), p ∈ l.enumFrom n → p.1 < n + l.length := by
  induction l with
  | nil => intro n p h; simp at h
  | cons x xs ih =>
    intro n p h
    rcases List.mem_cons.1 h with rfl | h'
    · simp
    · have := ih (n + 1) p h'
      simp only [List.length_cons]
      omega

theorem argsort_mem_lt (vs : List ℝ) (i : ℕ) (hi : i ∈ argsort vs) :
    i < vs.length := by
  unfold argsort at hi
  obtain ⟨p, hp, rfl⟩ := List.mem_map.1 hi
  rw [mem_foldl_insert] at hp
  rcases hp with h | h
  · simp at h
  · have := enumFrom_fst_lt vs 0 p h
    omega

theorem dominant_freqs_length (xs : List ℝ) (fs : ℚ) :
    (dominant_freqs xs fs).length = min 2 (xs.length / 2) := by
  unfold dominant_freqs
  rw [List.length_map, List.length_drop, argsort_length, fft_magnitude_length]
  omega

theorem match_loop_cons (doms : List ℚ) (tol : ℚ) (e : String × ℚ × ℚ)
    (r : List (String × ℚ × ℚ)) :
    match_loop doms tol (e :: r) =
      match entry_test doms tol e with
      | .error err => .error err
      | .ok true => .ok (some e.1)
      | .ok false => match_loop doms tol r := rfl

theorem match_loop_pair (d0 d1 tol : ℚ) (rest : List ℚ)
    (l : List (String × ℚ × ℚ)) :
    match_loop (d0 :: d1 :: rest) tol l =
      .ok ((l.find? (entry_matches d0 d1 tol)).map (fun e => e.1)) := by
  induction l with
  | nil => rfl
  | cons e r ih =>
    rw [match_loop_cons]
    have ht : entry_test (d0 :: d1 :: rest) tol e =
        .ok (entry_matches d0 d1 tol e) := rfl
    rw [ht]
    cases hb : entry_matches d0 d1 tol e
    · show match_loop (d0 :: d1 :: rest) tol r = _
      rw [List.find?_cons_of_neg _ (by simp [hb]), ih]
    · show Except.ok (some e.1) = _
      rw [List.find?_cons_of_pos _ hb]
      rfl

theorem match_loop_single_none (d0 tol : ℚ) (l : List (String × ℚ × ℚ))
    (h : ∀ e ∈ l, np_isclose d0 e.2.1 tol = false ∧
      np_isclose d0 e.2.2 tol = false) :
    match_loop [d0] tol l = .ok none := by
  induction l with
  | nil => rfl
  | cons e r ih =>
    obtain ⟨h1, h2⟩ := h e (List.mem_cons_self e r)
    rw [match_loop_cons]
    have ht : entry_test [d0] tol e = .ok false := by
      unfold entry_test
      simp [h1, h2]
    rw [ht]
    show match_loop [d0] tol r = .ok none
    exact ih (fun e' he' => h e' (List.mem_cons_of_mem e he'))

theorem dominant_freqs_single (xs : List ℝ) (fs : ℚ)
    (h : xs.length / 2 = 1) : dominant_freqs xs fs = [0] := by
  obtain ⟨m, hm⟩ : ∃ m, fft_magnitude xs = [m] :=
    List.length_eq_one.1 (by rw [fft_magnitude_length, h])
  unfold dominant_freqs
  rw [hm, show argsort [m] = [0] from rfl,
    show ([0] : List ℕ).length - 2 = 0 from rfl, List.drop_zero]
  simp only [List.map_cons, List.map_nil]
  unfold freq_bins
  rw [h, show List.range 1 = [0] from rfl]
  simp [List.getD]

theorem identify_eq_of_dominant (xs : List ℝ) (fs tol d0 d1 : ℚ)
    (rest : List ℚ) (h : dominant_freqs xs fs = d0 :: d1 :: rest) :
    identify_dtmf_key xs fs tol = .ok (identify_match d0 d1 tol) := by
  have hlen : xs.length ≠ 0 := by
    intro h0
    have hd := dominant_freqs_length xs fs
    rw [h, h0] at hd
    simp at hd
  unfold identify_dtmf_key
  rw [if_neg hlen, h, match_loop_pair]
  rfl

/-- Claim C5: on a zero-length buffer the detector fails with the
empty-buffer error (numpy's FFT raises a `ValueError` for zero data
points) rather than returning a result. -/
theorem identify_empty_buffer_error (fs tol : ℚ) :
    identify_dtmf_key [] fs tol = .error .emptyBuffer := by
  unfold identify_dtmf_key
  simp

/-- Claim C4 (counterexample): a buffer of length 1 retains no spectral
bin at all (`len(fft_result) // 2 = 0`), so on `[1]` the detector does not
return the unrecognized sentinel: the access `dominant_freqs[0]` in the
first loop iteration fails with an index error instead. -/
theorem identify_singleton_not_unrecognized :
    identify_dtmf_key [(1 : ℝ)] 8000 20 ≠ .ok none := by
  have heval : identify_dtmf_key [(1 : ℝ)] 8000 20 = .error .indexError := by
    have hdm : dominant_freqs [(1 : ℝ)] 8000 = [] := rfl
    unfold identify_dtmf_key
    rw [if_neg (by simp), hdm]
    rfl
  rw [heval]
  simp

/-- Claim C4 (amended): the short-buffer policy splits by how many spectral
bins the retained non-negative half has.  A buffer of length 1 has none, so
the access `dominant_freqs[0]` in the first loop iteration fails with
IndexError rather than returning the unrecognized sentinel.  A buffer of
length 2 or 3 retains exactly the DC bin, giving the single candidate
0 Hz; whenever that candidate passes no first `np.isclose` test of the
short-circuited `and`s (as at the default tolerance of 20 Hz),
`dominant_freqs[1]` is never evaluated and the detector does return the
unrecognized sentinel. -/
theorem identify_short_buffer_cases (xs : List ℝ) (fs tol : ℚ) :
    (xs.length = 1 → identify_dtmf_key xs fs tol = .error .indexError)
    ∧ ((xs.length = 2 ∨ xs.length = 3) →
        (∀ e ∈ DTMF_FREQS, np_isclose 0 e.2.1 tol = false ∧
            np_isclose 0 e.2.2 tol = false) →
        identify_dtmf_key xs fs tol = .ok none) := by
  constructor
  · intro h1
    have hdom : dominant_freqs xs fs = [] := by
      have hd := dominant_freqs_length xs fs
      rw [h1] at hd
      exact List.length_eq_zero.1 (by simpa using hd)
    unfold identify_dtmf_key
    rw [if_neg (by omega), hdom]
    rfl
  · intro h23 htol
    have hdom : dominant_freqs xs fs = [0] :=
      dominant_freqs_single xs fs (by rcases h23 with h | h <;> rw [h])
    unfold identify_dtmf_key
    rw [if_neg (by rcases h23 with h | h <;> omega), hdom]
    exact match_loop_single_none 0 tol DTMF_FREQS htol

/-- Witness for claim C4: the one-sample buffer `[1]` makes the detector
fail with the index error, while the two-sample buffer `[1, 1]` (single
0 Hz candidate, default tolerance 20) makes it return the unrecognized
sentinel. -/
theorem identify_short_buffer_witness :
    identify_dtmf_key [(1 : ℝ)] 8000 20 = .error .indexError ∧
      identify_dtmf_key [(1 : ℝ), 1] 8000 20 = .ok none := by
  constructor
  · exact (identify_short_buffer_cases [(1 : ℝ)] 8000 20).1 (by simp)
  · refine (identify_short_buffer_cases [(1 : ℝ), 1] 8000 20).2
      (by simp) ?_
    intro e he
    fin_cases he <;> refine ⟨?_, ?_⟩ <;>
      simp only [np_isclose, decide_eq_false_iff_not, abs_le] <;> norm_num

theorem find?_eq_get_of_first {α : Type} (p : α → Bool) (l : List α) :
    ∀ (i : ℕ) (hi : i < l.length), p (l.get ⟨i, hi⟩) = true →
      (∀ (j : ℕ) (hj : j < l.length), j < i → p (l.get ⟨j, hj⟩) = false) →
      l.find? p = some (l.get ⟨i, hi⟩) := by
  induction l with
  | nil => intro i hi; exact absurd hi (by simp)
  | cons a l ih =>
    intro i hi hp hprev
    cases i with
    | zero =>
      have hp' : p a = true := hp
      show List.find? p (a :: l) = some a
      rw [List.find?_cons_of_pos _ hp']
    | succ i =>
      have ha : p a = false :=
        hprev 0 (Nat.succ_pos _) (Nat.succ_pos i)
      rw [List.find?_cons_of_neg _ (by simp [ha])]
      have hi' : i < l.length := by
        simpa using Nat.lt_of_succ_lt_succ (by simpa using hi)
      exact ih i hi' hp
        (fun j hj hji =>
          hprev (j + 1) (Nat.succ_lt_succ hj) (Nat.succ_lt_succ hji))

theorem entry_matches_true_iff (d0 d1 tol : ℚ) (e : String × ℚ × ℚ) :
    entry_matches d0 d1 tol e = true ↔
      ((|d0 - e.2.1| ≤ tol + |e.2.1| / 100000 ∧
          |d1 - e.2.2| ≤ tol + |e.2.2| / 100000) ∨
        (|d0 - e.2.2| ≤ tol + |e.2.2| / 100000 ∧
          |d1 - e.2.1| ≤ tol + |e.2.1| / 100000)) := by
  simp [entry_matches, np_isclose]

theorem entry_matches_eq_false_iff (d0 d1 tol : ℚ) (e : String × ℚ × ℚ) :
    entry_matches d0 d1 tol e = false ↔
      ¬ ((|d0 - e.2.1| ≤ tol + |e.2.1| / 100000 ∧
          |d1 - e.2.2| ≤ tol + |e.2.2| / 100000) ∨
        (|d0 - e.2.2| ≤ tol + |e.2.2| / 100000 ∧
          |d1 - e.2.1| ≤ tol + |e.2.1| / 100000)) := by
  have h := entry_matches_true_iff d0 d1 tol e
  constructor
  · intro hf hc
    rw [h.mpr hc] at hf
    exact absurd hf (by simp)
  · intro hn
    cases hb : entry_matches d0 d1 tol e
    · rfl
    · exact absurd (h.mp hb) hn

/-- Claim C3: whenever the spectral stage produces a candidate pair, the
detector returns, without error, the first symbol of the frequency table
(in its insertion order: digits 1-9, then 0, then star, then hash) whose
entry matches the pair, and the unrecognized sentinel `none` when no entry
matches. -/
theorem identify_returns_first_table_match (xs : List ℝ) (fs tol d0 d1 : ℚ)
    (rest : List ℚ) (h : dominant_freqs xs fs = d0 :: d1 :: rest) :
    ((∀ e ∈ DTMF_FREQS, entry_matches d0 d1 tol e = false) →
        identify_dtmf_key xs fs tol = .ok none)
    ∧ ∀ (i : ℕ) (hi : i < DTMF_FREQS.length),
        entry_matches d0 d1 tol (DTMF_FREQS.get ⟨i, hi⟩) = true →
        (∀ (j : ℕ) (hj : j < DTMF_FREQS.length), j < i →
            entry_matches d0 d1 tol (DTMF_FREQS.get ⟨j, hj⟩) = false) →
        identify_dtmf_key xs fs tol =
          .ok (some (DTMF_FREQS.get ⟨i, hi⟩).1) := by
  have hkey := identify_eq_of_dominant xs fs tol d0 d1 rest h
  constructor
  · intro hnone
    rw [hkey]
    unfold identify_match
    rw [List.find?_eq_none.2 (fun e he => by simp [hnone e he])]
    rfl
  · intro i hi hp hprev
    rw [hkey]
    unfold identify_match
    rw [find?_eq_get_of_first _ _ i hi hp hprev]
    rfl

theorem fft_magnitude_four :
    fft_magnitude [(1 : ℝ), 0, 0, 0] = [1, 1] := by
  unfold fft_magnitude np_fft
  rw [show ([(1 : ℝ), 0, 0, 0]).length = 4 from rfl,
    show List.range 4 = [0, 1, 2, 3] from rfl,
    show (4 : ℕ) / 2 = 2 from rfl]
  simp only [List.map_cons, List.map_nil, List.take_succ_cons,
    List.take_zero, List.sum_cons, List.sum_nil]
  norm_num [List.getD, Complex.exp_zero]

theorem argsort_pair_eq : argsort [(1 : ℝ), 1] = [0, 1] := by
  unfold argsort
  rw [show ([(1 : ℝ), 1]).enum = [(0, (1 : ℝ)), (1, (1 : ℝ))] from rfl,
    List.foldl_cons, List.foldl_cons, List.foldl_nil]
  simp [insert_by_mag]

theorem freq_bins_four : freq_bins 4 8000 = [0, 2000] := by
  unfold freq_bins
  rw [show (4 : ℕ) / 2 = 2 from rfl, show List.range 2 = [0, 1] from rfl]
  simp only [List.map_cons, List.map_nil, List.cons.injEq, and_true]
  norm_num

theorem dominant_freqs_four_eval :
    dominant_freqs [(1 : ℝ), 0, 0, 0] 8000 = [0, 2000] := by
  unfold dominant_freqs
  rw [fft_magnitude_four, argsort_pair_eq,
    show ([0, 1] : List ℕ).length = 2 from rfl,
    show (2 : ℕ) - 2 = 0 from rfl, List.drop_zero,
    show ([(1 : ℝ), 0, 0, 0]).length = 4 from rfl, freq_bins_four]
  simp [List.getD]

/-- Witness for claim C3: on the buffer `[1, 0, 0, 0]` the candidate pair
is (0 Hz, 2000 Hz), no table entry matches it at tolerance 20, and the
detector returns the unrecognized sentinel. -/
theorem identify_first_match_witness :
    identify_dtmf_key [(1 : ℝ), 0, 0, 0] 8000 20 = .ok none := by
  refine (identify_returns_first_table_match [(1 : ℝ), 0, 0, 0] 8000 20 0
    2000 [] dominant_freqs_four_eval).1 ?_
  intro e he
  fin_cases he <;> rw [entry_matches_eq_false_iff] <;>
    simp only [abs_le] <;> norm_num

/-- Claim C10: on any buffer of at least 4 samples (two retained spectral
bins) the detector terminates without error: the two dominant-bin index
accesses are within the bounds of the frequency list, and the result is
`.ok` of either the unrecognized sentinel or one of the 12 table
symbols. -/
theorem identify_total_on_adequate_buffer (xs : List ℝ) (fs tol : ℚ)
    (h4 : 4 ≤ xs.length) :
    (∀ i ∈ (argsort (fft_magnitude xs)).drop
        ((argsort (fft_magnitude xs)).length - 2),
        i < (freq_bins xs.length fs).length)
    ∧ ∃ r : Option String, identify_dtmf_key xs fs tol = .ok r ∧
        (r = none ∨ ∃ e ∈ DTMF_FREQS, r = some e.1) := by
  constructor
  · intro i hi
    have hmem : i ∈ argsort (fft_magnitude xs) := List.mem_of_mem_drop hi
    have hlt := argsort_mem_lt _ _ hmem
    rw [freq_bins_length]
    rw [fft_magnitude_length] at hlt
    exact hlt
  · have hlen : (dominant_freqs xs fs).length = 2 := by
      rw [dominant_freqs_length]
      omega
    obtain ⟨d0, d1, hd⟩ : ∃ d0 d1, dominant_freqs xs fs = [d0, d1] := by
      rcases hdm : dominant_freqs xs fs with _ | ⟨a, _ | ⟨b, t⟩⟩
      · rw [hdm] at hlen; simp at hlen
      · rw [hdm] at hlen; simp at hlen
      · rw [hdm] at hlen
        simp only [List.length_cons] at hlen
        have ht : t = [] := List.length_eq_zero.1 (by omega)
        exact ⟨a, b, by rw [ht]⟩
    refine ⟨identify_match d0 d1 tol,
      identify_eq_of_dominant xs fs tol d0 d1 [] hd, ?_⟩
    unfold identify_match
    cases hf : DTMF_FREQS.find? (entry_matches d0 d1 tol) with
    | none => exact Or.inl (by simp)
    | some e => exact Or.inr ⟨e, List.mem_of_find?_eq_some hf, by simp⟩

/-- Witness for claim C10: the 4-sample buffer `[1, 0, 0, 0]` satisfies
the length bound and the detector returns an `.ok` result on it. -/
theorem identify_total_witness :
    ∃ r : Option String,
      identify_dtmf_key [(1 : ℝ), 0, 0, 0] 8000 20 = .ok r ∧
        (r = none ∨ ∃ e ∈ DTMF_FREQS, r = some e.1) :=
  (identify_total_on_adequate_buffer [(1 : ℝ), 0, 0, 0] 8000 20 (by simp)).2
